import Mathlib

/-!
Verification development for the abs-kosync-bridge repository.

The Python source is shallowly embedded: pure fragments become Lean
functions over `ℚ` (Python floats are modelled exactly), stateful
fragments become explicit state-passing functions, fallible fragments
return `Option` or an explicit result type.  Each definition is named
after the Python function it embeds and carries a doc comment pointing
at the source location.
-/

namespace AbsKosync

/-! ## Transcript model (`transcriber.py`, `main.py`)

A transcript file is a JSON document.  `process_audio` writes a JSON
list of segment objects `{start, end, text}`; `_get_transcript_duration`
also tolerates a JSON dict carrying a `duration` field, and any
missing/unreadable file.  The `end` field of a segment is named `stop`
here because `end` is a Lean keyword. -/

structure Segment where
  start : ℚ
  stop : ℚ
  text : String
  deriving DecidableEq, Repr

/-- Content of the transcript file as `_get_transcript_duration` (main.py
lines 112-117) distinguishes it: a JSON list of segments, a JSON dict with
a `duration` field, or a missing/unreadable/otherwise-shaped file (any
exception is swallowed by the bare `except`). -/
inductive TranscriptFile where
  | segments (segs : List Segment)
  | dict (duration : ℚ)
  | unreadable
  deriving DecidableEq

/-- Embeds `SyncManager._get_transcript_duration` (main.py 112-117):
for a non-empty JSON list it returns the `end` of the last segment, for a
dict the `duration` field (default 0), and 0 in every other case
(empty list, unreadable file). -/
def get_transcript_duration : TranscriptFile → ℚ
  | .segments segs =>
      match segs.getLast? with
      | some s => s.stop
      | none => 0
  | .dict d => d
  | .unreadable => 0

/-- Embeds `SyncManager._abs_to_percentage` (main.py 119-121):
`min(max(abs_seconds / duration, 0.0), 1.0) if duration > 0 else None`. -/
def abs_to_percentage (abs_seconds : ℚ) (tf : TranscriptFile) : Option ℚ :=
  let duration := get_transcript_duration tf
  if 0 < duration then some (min (max (abs_seconds / duration) 0) 1) else none

/-! ## Mapping lifecycle (`main.py`)

Only the `status` field of a mapping record matters for the startup
crash-recovery step. -/

/-- Mapping record restricted to its lifecycle `status` string; the other
fields of the JSON mapping record are not read by `cleanup_stale_jobs`. -/
structure Mapping where
  status : String
  deriving DecidableEq, Repr

/-- Embeds `SyncManager.cleanup_stale_jobs` (main.py 77-83): every mapping
whose status is the string `crashed` is reset to `active`; all other
mappings are left untouched. -/
def cleanup_stale_jobs (mappings : List Mapping) : List Mapping :=
  mappings.map fun m => if m.status = "crashed" then { m with status := "active" } else m

/-! ## JSON objects for Storyteller locators (`storyteller_db.py`)

`update_progress` and `force_position_update` manipulate the `locator`
column, a JSON object.  JSON values are embedded by `J`; Python dicts
become association lists with Python dict semantics: `objGet` is
`dict.get`, `objSet` is item assignment (an existing key keeps its
position, a new key is appended), `objDel` is `del`. -/

inductive J where
  | num (q : ℚ)
  | str (s : String)
  | bool (b : Bool)
  | null
  | arr (xs : List J)
  | obj (fields : List (String × J))

/-- Lookup of a key in a JSON object, i.e. Python `dict.get(k)`. -/
def objGet (fields : List (String × J)) (k : String) : Option J :=
  match fields with
  | [] => none
  | (k', v) :: rest => if k' = k then some v else objGet rest k

/-- Item assignment `d[k] = v` on a Python dict: an existing key is
overwritten in place, a fresh key is appended in insertion order. -/
def objSet (fields : List (String × J)) (k : String) (v : J) : List (String × J) :=
  match fields with
  | [] => [(k, v)]
  | (k', v') :: rest => if k' = k then (k, v) :: rest else (k', v') :: objSet rest k v

/-- Deletion `del d[k]` guarded by `if k in d` (a no-op for a missing key),
as in the anchor-stripping loop of `update_progress`. -/
def objDel (fields : List (String × J)) (k : String) : List (String × J) :=
  match fields with
  | [] => []
  | (k', v') :: rest => if k' = k then rest else (k', v') :: objDel rest k

/-- Python truthiness of a JSON value, used by
`elif old_locator.get("href"):` in `force_position_update`. -/
def jTruthy : J → Bool
  | .num q => q ≠ 0
  | .str s => s ≠ ""
  | .bool b => b
  | .null => false
  | .arr xs => !xs.isEmpty
  | .obj fs => !fs.isEmpty

/-! ## Storyteller position writes (`storyteller_db.py`) -/

/-- Latest `position` row for a book, as fetched by
`SELECT uuid, locator, timestamp FROM position ... ORDER BY timestamp DESC
LIMIT 1`.  `locatorCol = some fields` models a locator column parsing to a
JSON object; `none` models a NULL/empty or unparseable column, which the
Python turns into the empty dict (`locator = {}` with `except: pass`). -/
structure PositionRow where
  uuid : String
  locatorCol : Option (List (String × J))
  timestamp : ℤ

/-- Outcome of one call to `update_progress`/`force_position_update`.
`noRow` covers both a missing book and a missing position row (the
function returns False without touching storage); `skip` is the
epsilon short-circuit returning True without a write; `typeError`
models a runtime `TypeError`/`AttributeError` on an ill-typed locator,
caught by the outer `except` (returns False, no write); `write` is the
single `UPDATE position SET locator = ?, timestamp = ? WHERE uuid = ?`. -/
inductive UpdateResult where
  | noRow
  | skip
  | typeError
  | write (locatorFields : List (String × J)) (newTs : ℤ) (rowUuid : String)

/-- Keys stripped by the anchor-removal loop of `update_progress`
(storyteller_db.py 163-165). -/
def anchorKeys : List String := ["cssSelector", "fragments", "position", "progression"]

/-- Sub-step `if "locations" not in locator: locator["locations"] = {}`
(storyteller_db.py 149). -/
def ensureLocations (locator0 : List (String × J)) : List (String × J) :=
  if (objGet locator0 "locations").isNone then objSet locator0 "locations" (J.obj [])
  else locator0

/-- Sub-step building the mutated locations object (storyteller_db.py
158-165): `locator['locations']['totalProgression'] = float(percentage)`
followed by the deletion loop over the four anchor keys. -/
def mutatedLocations (lfs : List (String × J)) (percentage : ℚ) : List (String × J) :=
  anchorKeys.foldl objDel (objSet lfs "totalProgression" (J.num percentage))

/-- Embeds `StorytellerDB.update_progress` (storyteller_db.py 107-180),
from the point where the latest position row for the matched book has been
fetched (`pos_row`, or `none` when the book or row is missing).  Inputs
`now_ms = int(time.time() * 1000)` and the target `percentage`.
Steps, in source order: `new_ts = max(now_ms, current_ts) + 10000`;
parse the locator column (empty dict on NULL/parse failure); ensure a
`locations` sub-object exists; read `old_pct` with default 0; skip when
`abs(float(percentage) - old_pct) < 0.001`; otherwise set
`totalProgression`, delete the four anchor keys, and issue the single
keyed UPDATE with the mutated locator and `new_ts`. -/
def update_progress (pos_row : Option PositionRow) (now_ms : ℤ) (percentage : ℚ) :
    UpdateResult :=
  match pos_row with
  | none => .noRow
  | some row =>
      let new_ts := max now_ms row.timestamp + 10000
      let locator := ensureLocations (row.locatorCol.getD [])
      match objGet locator "locations" with
      | some (J.obj lfs) =>
          match (objGet lfs "totalProgression").getD (J.num 0) with
          | J.num old_pct =>
              if |percentage - old_pct| < 1 / 1000 then .skip
              else
                .write (objSet locator "locations" (J.obj (mutatedLocations lfs percentage)))
                  new_ts row.uuid
          | _ => .typeError
      | some _ => .typeError
      | none => .typeError

/-- Embeds `StorytellerDB.force_position_update` (storyteller_db.py
234-297) from the fetched latest position row onward: a fresh locator is
built from scratch holding only `type`, `locations.totalProgression` and
(when available) `href`; the timestamp written is `now_ms + 60000`,
computed without consulting the existing row timestamp. -/
def force_position_update (pos_row : Option PositionRow) (now_ms : ℤ) (percentage : ℚ)
    (target_href : Option String) : UpdateResult :=
  match pos_row with
  | none => .noRow
  | some row =>
      let new_ts := now_ms + 60000
      let old_locator := row.locatorCol.getD []
      let typeVal := (objGet old_locator "type").getD (J.str "application/xhtml+xml")
      let base : List (String × J) :=
        [("type", typeVal), ("locations", J.obj [("totalProgression", J.num percentage)])]
      let fs :=
        match target_href with
        | some h => objSet base "href" (J.str h)
        | none =>
            match objGet old_locator "href" with
            | some hv => if jTruthy hv then objSet base "href" hv else base
            | none => base
      .write fs new_ts row.uuid

/-- Timestamp carried by a `write` outcome (0 when nothing is written);
projection used to state properties of the written logical timestamp. -/
def writtenTs : UpdateResult → ℤ
  | .write _ ts _ => ts
  | _ => 0

/-- Is the outcome an actual storage mutation? -/
def isWrite : UpdateResult → Bool
  | .write _ _ _ => true
  | _ => false

/-- State of the latest position row after one call: the keyed UPDATE
rewrites that row with the mutated locator and new timestamp (the row it
targets is the fetched one — `WHERE uuid = pos_row.uuid`); every other
outcome leaves storage untouched. -/
def applyUpdate (row : PositionRow) : UpdateResult → PositionRow
  | .write fs ts u =>
      if u = row.uuid then { row with locatorCol := some fs, timestamp := ts } else row
  | _ => row

/-! ## Transcript aligner (`transcriber.py`) -/

/-- Text of segment `i` (the empty string out of range; the Python only
indexes in range). -/
def segText (data : List Segment) (i : ℕ) : String :=
  ((data[i]?).map (·.text)).getD ""

/-- Character length of the text of segment `i`, the quantity the
expansion loop of `get_text_at_time` accumulates in `current_len`. -/
def segLen (data : List Segment) (i : ℕ) : ℕ :=
  (segText data i).length

/-- Embeds the nearest-boundary scan of `get_text_at_time`
(transcriber.py 136-142): for each segment the distance
`min(abs(timestamp - start), abs(timestamp - end))` is computed and the
first index attaining the minimum distance is kept (the Python updates
only on a strict improvement).  Returns `(best_distance, best_index)`
starting the numbering at `i`. -/
def nearestAux (t : ℚ) : List Segment → ℕ → Option (ℚ × ℕ)
  | [], _ => none
  | s :: rest, i =>
      let d := min |t - s.start| |t - s.stop|
      match nearestAux t rest (i + 1) with
      | none => some (d, i)
      | some (bd, bi) => if d ≤ bd then some (d, i) else some (bd, bi)

/-- Index of the segment with the nearest boundary to `t` (first on ties),
`none` for the empty transcript. -/
def nearestIdx (data : List Segment) (t : ℚ) : Option ℕ :=
  (nearestAux t data 0).map (·.2)

/-- Target index selection of `get_text_at_time` (transcriber.py
130-144): the first segment containing `timestamp` by interval
containment, otherwise the nearest-boundary segment; `none` only for an
empty transcript (the Python keeps `target_idx = -1` and returns None). -/
def startIdx (data : List Segment) (t : ℚ) : Option ℕ :=
  match data.findIdx? (fun s => decide (s.start ≤ t ∧ t ≤ s.stop)) with
  | some i => some i
  | none => nearestIdx data t

/-- Embeds the outward-expansion `while` loop of `get_text_at_time`
(transcriber.py 146-165).  State: the accumulated `segments_indices`
list, `current_len` (sum of the included segment text lengths), and the
cursors `left`/`right`.  One loop iteration: while `current_len < 400`,
prepend `left` when `left >= 0` (breaking immediately when the target is
reached), then append `right` when `right < len(data)`; break when
neither direction was available. -/
def expandLoop (data : List Segment) (indices : List ℕ) (current_len : ℕ)
    (left : ℤ) (right : ℕ) : List ℕ :=
  if current_len < 400 then
    if h : 0 ≤ left then
      if 400 ≤ current_len + segLen data left.toNat then left.toNat :: indices
      else if hr : right < data.length then
        expandLoop data ((left.toNat :: indices) ++ [right])
          (current_len + segLen data left.toNat + segLen data right) (left - 1) (right + 1)
      else expandLoop data (left.toNat :: indices) (current_len + segLen data left.toNat)
        (left - 1) right
    else if hr : right < data.length then
      expandLoop data (indices ++ [right]) (current_len + segLen data right) left (right + 1)
    else indices
  else indices
termination_by (left + 1).toNat + (data.length - right)
decreasing_by
  · omega
  · omega
  · omega

/-- Python `" ".join(texts)`. -/
def pyJoin : List String → String
  | [] => ""
  | [s] => s
  | s :: rest => s ++ " " ++ pyJoin rest

/-- Embeds `AudioTranscriber.get_text_at_time` (transcriber.py 125-172)
for a readable transcript `data` (an unreadable file takes the `except`
path and returns None, which the claims do not concern): select the
start segment, expand outward, and join the selected texts with single
spaces in index order. -/
def get_text_at_time (data : List Segment) (timestamp : ℚ) : Option String :=
  match startIdx data timestamp with
  | none => none
  | some ti =>
      let indices := expandLoop data [ti] (segLen data ti) ((ti : ℤ) - 1) (ti + 1)
      some (pyJoin (indices.map (segText data)))

/-- Embeds `rapidfuzz.process.extractOne(query, texts, scorer=scorer)`:
scan the choices left to right keeping the score and index of the best
choice, replacing the incumbent only on a strictly greater score, so
that among equal-scoring choices the first occurrence wins.  Returns
`(best_score, best_index)`, `none` for an empty choice list.  The fuzzy
scorer is a parameter of the embedding (rapidfuzz is an external
library). -/
def extractBest (scorer : String → String → ℚ) (query : String) :
    List String → Option (ℚ × ℕ)
  | [] => none
  | t :: ts =>
      match extractBest scorer query ts with
      | none => some (scorer query t, 0)
      | some (bs, bi) =>
          if bs > scorer query t then some (bs, bi + 1) else some (scorer query t, 0)

/-- Embeds `AudioTranscriber.find_time_for_text` (transcriber.py
174-189) for a readable transcript: run the fuzzy extractor over the
segment texts and return the matched segment `start` when the best
score strictly exceeds 80, None otherwise. -/
def find_time_for_text (scorer : String → String → ℚ) (data : List Segment)
    (search_text : String) : Option ℚ :=
  match extractBest scorer search_text (data.map (·.text)) with
  | some (score, idx) => if score > 80 then (data[idx]?).map (·.start) else none
  | none => none

/-- Is `a` a prefix of `b`, over character lists. -/
def charsPref : List Char → List Char → Bool
  | [], _ => true
  | _ :: _, [] => false
  | x :: xs, y :: ys => x = y && charsPref xs ys

/-- Does `a` occur inside `b` as a contiguous run, over character lists. -/
def charsInfix (a : List Char) : List Char → Bool
  | [] => charsPref a []
  | y :: ys => charsPref a (y :: ys) || charsInfix a ys

/-- Model of `rapidfuzz.fuzz.partial_ratio` on the inputs the theorems
use: two strings one of which occurs inside the other score 100 (an
exact property of partial_ratio: equal strings and substring containment
give a perfect partial alignment), all other pairs score 0 (partial_ratio
gives some value below the 80 acceptance threshold for the concrete
unrelated strings appearing in the theorems below). -/
def fuzzScoreModel (a b : String) : ℚ :=
  if charsInfix a.data b.data || charsInfix b.data a.data then 100 else 0

/-! ## Sync cycle (`main.py sync_cycle`, `api_clients.py`)

The per-mapping body of `SyncManager.sync_cycle` (main.py 177-255) is
embedded as one pure step function.  Network reads are inputs: an
`Option ℚ` is `none` when the underlying HTTP request fails or returns a
non-200 status — the client methods catch this themselves and return a
default.  The external collaborators consulted during propagation
(transcript aligner reads on the mapping transcript file, ebook text
index, fragment extraction, the hardcover service) enter as oracle
functions, since their outputs come from files and services whose values
the cycle merely consumes. -/

/-- Embeds `ABSClient.get_progress` (api_clients.py 92-100): the
`currentTime` of a 200 response, and 0.0 on any error or non-200
status. -/
def ABSClient_get_progress (httpResult : Option ℚ) : ℚ :=
  httpResult.getD 0

/-- Embeds `KoSyncClient.get_progress` (api_clients.py 224-234): the
`percentage` of a 200 response, and 0.0 on any error or non-200
status. -/
def KoSyncClient_get_progress (httpResult : Option ℚ) : ℚ :=
  httpResult.getD 0

/-- The three progress sources named by the keys of `progress_map` in
`sync_cycle`. -/
inductive Source where
  | KOSYNC
  | STORYTELLER
  | ABS
  deriving DecidableEq, Repr

/-- Raw per-cycle inputs for one mapping: the HTTP-level results of the
two client reads (`none` = failed request, mapped to 0.0 by the client),
and the percentage component of `StorytellerDB.get_progress` (`none`
when the book or its position row is missing or unreadable; `sync_cycle`
applies `or 0.0`). -/
structure RawReads where
  absHttp : Option ℚ
  koHttp : Option ℚ
  stRow : Option ℚ
  deriving DecidableEq

/-- Embeds the construction of `progress_map` (main.py 204-205) composed
with the client reads: KOSYNC and STORYTELLER are always present in
insertion order; ABS is appended only when `abs_pct is not None`. -/
def cycle_candidates (reads : RawReads) (tf : TranscriptFile) : List (Source × ℚ) :=
  let abs_ts := ABSClient_get_progress reads.absHttp
  let ko_pct := KoSyncClient_get_progress reads.koHttp
  let st_pct := reads.stRow.getD 0
  [(Source.KOSYNC, ko_pct), (Source.STORYTELLER, st_pct)] ++
    (match abs_to_percentage abs_ts tf with
     | some p => [(Source.ABS, p)]
     | none => [])

/-- Embeds `max(progress_map, key=progress_map.get)` (main.py 206):
Python `max` scans the keys in insertion order and keeps the first key
whose value is maximal (a later key replaces the incumbent only when
strictly greater). -/
def pyMaxBySnd : List (Source × ℚ) → Option (Source × ℚ)
  | [] => none
  | p :: rest =>
      match pyMaxBySnd rest with
      | none => some p
      | some q => if q.2 > p.2 then some q else some p

/-- Leader and leader value selected by `sync_cycle`; the candidate list
always contains KOSYNC, so the default of `getD` is never used. -/
def cycle_leader (reads : RawReads) (tf : TranscriptFile) : Source × ℚ :=
  (pyMaxBySnd (cycle_candidates reads tf)).getD (Source.KOSYNC, 0)

/-- Configured drift thresholds (main.py 60-62): `delta_abs` is
`SYNC_DELTA_ABS_SECONDS`, `delta_pct` is `SYNC_DELTA_KOSYNC_PERCENT/100`,
used for both percentage sources. -/
structure Thresholds where
  delta_abs : ℚ
  delta_pct : ℚ
  deriving DecidableEq

/-- Persisted per-mapping sync-state entry `self.state[abs_id]`.  Every
read of a missing entry or key uses `.get(key, 0)`, so an absent entry is
identified with the all-zero record. -/
structure PrevState where
  abs_ts : ℚ
  abs_pct : ℚ
  kosync_pct : ℚ
  storyteller_pct : ℚ
  last_updated : ℚ
  deriving DecidableEq, Repr

/-- Oracle values for the external collaborators consulted inside the
propagation branch of `sync_cycle`:
`text_at_time t` is `transcriber.get_text_at_time(transcript_file, t)`;
`find_text_location txt` is the `(match_pct, xpath)` part of
`ebook_parser.find_text_location(epub, txt, ...)` (the hint argument does
not change which oracle value is returned);
`get_text_at_percentage p` is `ebook_parser.get_text_at_percentage`;
`find_time_for_text txt` is `transcriber.find_time_for_text`;
`fragment` is the fragment identifier extracted by
`storyteller_db.get_progress_with_fragment` (`none` when the stored href
has no `#` part); `fragment_text` is the result of
`get_text_from_storyteller_fragment`;
`hardcover_book` says whether the mapping has (or automatches) a
hardcover book id with a user book, enabling the hardcover side-effect. -/
structure Collaborators where
  text_at_time : ℚ → Option String
  find_text_location : String → Option ℚ × Option String
  get_text_at_percentage : ℚ → Option String
  find_time_for_text : String → Option ℚ
  fragment : Option String
  fragment_text : Option String
  hardcover_book : Bool

/-- One propagation write issued by the cycle to an external source. -/
inductive PropWrite where
  | kosync (pct : ℚ) (xpath : Option String)
  | storyteller (pct : ℚ)
  | absPlayer (ts : ℚ)
  | hardcover (pct : ℚ)
  deriving DecidableEq

/-- Result of one per-mapping cycle body: the propagation writes issued,
in order, and the state entry stored back into `self.state[abs_id]`. -/
structure CycleStep where
  writes : List PropWrite
  newState : PrevState
  deriving DecidableEq

/-- Embeds the per-mapping body of `SyncManager.sync_cycle` (main.py
184-255) for an `active` mapping whose progress fetches do not raise:
read and normalize the three sources, compare against the stored
baselines with the per-source thresholds (main.py 194-197), either take
the suppressed branch (no writes, baselines refreshed, `last_updated`
kept, main.py 199-202) or select a leader and attempt propagation,
finally storing the post-cycle state with `last_updated = now`
(main.py 254).  Python truthiness of `if txt:` / `if match_pct:` /
`if ts:` is modelled exactly: the empty string and 0 are falsy. -/
def sync_cycle_step (th : Thresholds) (co : Collaborators) (tf : TranscriptFile)
    (reads : RawReads) (prev : PrevState) (now : ℚ) : CycleStep :=
  let abs_ts := ABSClient_get_progress reads.absHttp
  let ko_pct := KoSyncClient_get_progress reads.koHttp
  let st_pct := reads.stRow.getD 0
  let abs_pct := abs_to_percentage abs_ts tf
  let abs_changed := |abs_ts - prev.abs_ts| > th.delta_abs
  let ko_changed := |ko_pct - prev.kosync_pct| > th.delta_pct
  let st_changed := |st_pct - prev.storyteller_pct| > th.delta_pct
  if ¬(abs_changed ∨ ko_changed ∨ st_changed) then
    { writes := []
      newState :=
        { abs_ts := abs_ts, abs_pct := abs_pct.getD 0, kosync_pct := ko_pct,
          storyteller_pct := st_pct, last_updated := prev.last_updated } }
  else
    let leader := cycle_leader reads tf
    let leader_pct := leader.2
    let failed : List PropWrite × ℚ × ℚ × Bool := ([], abs_ts, leader_pct, false)
    let attempt : List PropWrite × ℚ × ℚ × Bool :=
      match leader.1 with
      | Source.ABS =>
          match co.text_at_time abs_ts with
          | some txt =>
              if txt = "" then failed
              else
                match co.find_text_location txt with
                | (some mp, xpath) =>
                    if mp = 0 then failed
                    else ([.kosync mp xpath, .storyteller mp], abs_ts, mp, true)
                | (none, _) => failed
          | none => failed
      | Source.KOSYNC =>
          match co.get_text_at_percentage ko_pct with
          | some txt =>
              if txt = "" then failed
              else
                match co.find_time_for_text txt with
                | some ts =>
                    if ts = 0 then failed
                    else ([.absPlayer ts, .storyteller ko_pct], ts, leader_pct, true)
                | none => failed
          | none => failed
      | Source.STORYTELLER =>
          let fragTxt : Option String :=
            match co.fragment with
            | some frag => if frag = "" then none else co.fragment_text
            | none => none
          let txt? : Option String :=
            match fragTxt with
            | some t => if t = "" then co.get_text_at_percentage st_pct else some t
            | none => co.get_text_at_percentage st_pct
          match txt? with
          | some txt =>
              if txt = "" then failed
              else
                match co.find_time_for_text txt with
                | some ts =>
                    if ts = 0 then failed
                    else
                      ([.absPlayer ts, .kosync st_pct (co.find_text_location txt).2],
                        ts, leader_pct, true)
                | none => failed
          | none => failed
    let final_ts := attempt.2.1
    let final_pct := attempt.2.2.1
    let sync_success := attempt.2.2.2
    let hardcoverWrites : List PropWrite :=
      if sync_success ∧ final_pct > 1 / 100 ∧ co.hardcover_book then [.hardcover final_pct]
      else []
    { writes := attempt.1 ++ hardcoverWrites
      newState :=
        { abs_ts := final_ts, abs_pct := (abs_to_percentage final_ts tf).getD 0,
          kosync_pct := final_pct, storyteller_pct := final_pct, last_updated := now } }

/-! ## Helper lemmas on Python-dict association lists -/

theorem objGet_objSet_self (l : List (String × J)) (k : String) (v : J) :
    objGet (objSet l k v) k = some v := by
  induction l with
  | nil => simp [objSet, objGet]
  | cons p rest ih =>
      obtain ⟨ka, va⟩ := p
      by_cases h : ka = k
      · simp [objSet, objGet, h]
      · simp [objSet, objGet, h, ih]

theorem objGet_objSet_ne (l : List (String × J)) (k k' : String) (v : J) (h : k' ≠ k) :
    objGet (objSet l k v) k' = objGet l k' := by
  induction l with
  | nil => simp [objSet, objGet, Ne.symm h]
  | cons p rest ih =>
      obtain ⟨ka, va⟩ := p
      by_cases hk : ka = k
      · subst hk
        simp [objSet, objGet, Ne.symm h]
      · by_cases hk' : ka = k'
        · simp [objSet, objGet, hk, hk', h]
        · simp [objSet, objGet, hk, hk', ih]

theorem objGet_objDel_ne (l : List (String × J)) (k k' : String) (h : k' ≠ k) :
    objGet (objDel l k) k' = objGet l k' := by
  induction l with
  | nil => simp [objDel, objGet]
  | cons p rest ih =>
      obtain ⟨ka, va⟩ := p
      by_cases hk : ka = k
      · subst hk
        simp [objDel, objGet, Ne.symm h]
      · by_cases hk' : ka = k'
        · simp [objDel, objGet, hk, hk', h]
        · simp [objDel, objGet, hk, hk', ih]

theorem objGet_eq_none_of_key_not_mem (l : List (String × J)) (k : String)
    (h : k ∉ l.map Prod.fst) : objGet l k = none := by
  induction l with
  | nil => simp [objGet]
  | cons p rest ih =>
      obtain ⟨ka, va⟩ := p
      simp only [List.map_cons, List.mem_cons, not_or] at h
      rw [objGet, if_neg (fun hh => h.1 hh.symm)]
      exact ih h.2

theorem objGet_objDel_self (l : List (String × J)) (k : String)
    (hnd : (l.map Prod.fst).Nodup) : objGet (objDel l k) k = none := by
  induction l with
  | nil => simp [objDel, objGet]
  | cons p rest ih =>
      obtain ⟨ka, va⟩ := p
      simp only [List.map_cons, List.nodup_cons] at hnd
      by_cases hk : ka = k
      · subst hk
        rw [objDel, if_pos rfl]
        exact objGet_eq_none_of_key_not_mem rest ka hnd.1
      · rw [objDel, if_neg hk, objGet, if_neg hk]
        exact ih hnd.2

theorem keys_objSet_of_mem (l : List (String × J)) (k : String) (v : J)
    (h : k ∈ l.map Prod.fst) : (objSet l k v).map Prod.fst = l.map Prod.fst := by
  induction l with
  | nil => simp at h
  | cons p rest ih =>
      obtain ⟨ka, va⟩ := p
      by_cases hk : ka = k
      · simp [objSet, hk]
      · simp only [List.map_cons, List.mem_cons] at h
        rcases h with h | h
        · exact absurd h.symm hk
        · simp [objSet, hk, ih h]

theorem keys_objSet_of_not_mem (l : List (String × J)) (k : String) (v : J)
    (h : k ∉ l.map Prod.fst) : (objSet l k v).map Prod.fst = l.map Prod.fst ++ [k] := by
  induction l with
  | nil => simp [objSet]
  | cons p rest ih =>
      obtain ⟨ka, va⟩ := p
      simp only [List.map_cons, List.mem_cons, not_or] at h
      rw [objSet, if_neg (fun hh => h.1 hh.symm)]
      simp [ih h.2]

theorem nodup_keys_objSet (l : List (String × J)) (k : String) (v : J)
    (h : (l.map Prod.fst).Nodup) : ((objSet l k v).map Prod.fst).Nodup := by
  by_cases hm : k ∈ l.map Prod.fst
  · rw [keys_objSet_of_mem l k v hm]
    exact h
  · rw [keys_objSet_of_not_mem l k v hm]
    refine List.Nodup.append h (List.nodup_singleton k) ?_
    simpa [List.disjoint_singleton] using hm

theorem keys_objDel_sublist (l : List (String × J)) (k : String) :
    List.Sublist ((objDel l k).map Prod.fst) (l.map Prod.fst) := by
  induction l with
  | nil => simp [objDel]
  | cons p rest ih =>
      obtain ⟨ka, va⟩ := p
      by_cases hk : ka = k
      · rw [objDel, if_pos hk]
        simp only [List.map_cons]
        exact List.sublist_cons_self ka (rest.map Prod.fst)
      · rw [objDel, if_neg hk]
        simpa using ih.cons₂ ka

theorem nodup_keys_objDel (l : List (String × J)) (k : String)
    (h : (l.map Prod.fst).Nodup) : ((objDel l k).map Prod.fst).Nodup :=
  List.Nodup.sublist (keys_objDel_sublist l k) h

theorem objGet_foldl_objDel_not_mem (ks : List String) (l : List (String × J)) (k : String)
    (h : k ∉ ks) : objGet (ks.foldl objDel l) k = objGet l k := by
  induction ks generalizing l with
  | nil => rfl
  | cons a ks ih =>
      simp only [List.mem_cons, not_or] at h
      rw [List.foldl_cons, ih (objDel l a) h.2, objGet_objDel_ne l a k h.1]

theorem nodup_keys_foldl_objDel (ks : List String) (l : List (String × J))
    (h : (l.map Prod.fst).Nodup) : (((ks.foldl objDel l).map Prod.fst)).Nodup := by
  induction ks generalizing l with
  | nil => exact h
  | cons a ks ih =>
      rw [List.foldl_cons]
      exact ih (objDel l a) (nodup_keys_objDel l a h)

theorem objGet_foldl_objDel_mem (ks : List String) (l : List (String × J)) (a : String)
    (hnd : (l.map Prod.fst).Nodup) (ha : a ∈ ks) : objGet (ks.foldl objDel l) a = none := by
  induction ks generalizing l with
  | nil => cases ha
  | cons b ks ih =>
      rw [List.foldl_cons]
      by_cases hks : a ∈ ks
      · exact ih (objDel l b) (nodup_keys_objDel l b hnd) hks
      · have hab : a = b := by
          rcases List.mem_cons.mp ha with h | h
          · exact h
          · exact absurd h hks
        subst hab
        rw [objGet_foldl_objDel_not_mem ks (objDel l a) a hks]
        exact objGet_objDel_self l a hnd

/-- Characterization of the write branch of `update_progress` on an
existing row: a `write` outcome carries the leapfrogged timestamp, is
keyed by the fetched row uuid, and its locator is the ensured locator
with the `locations` entry replaced by the mutated locations object,
built from some existing locations list `lfs` whose `totalProgression`
defaulted to an `old_pct` outside epsilon of the target. -/
theorem update_progress_write_eq (row : PositionRow) (now_ms : ℤ) (pct : ℚ)
    (fs : List (String × J)) (ts : ℤ) (u : String)
    (h : update_progress (some row) now_ms pct = .write fs ts u) :
    ts = max now_ms row.timestamp + 10000 ∧ u = row.uuid ∧
    ∃ lfs old_pct,
      objGet (ensureLocations (row.locatorCol.getD [])) "locations" = some (J.obj lfs) ∧
      (objGet lfs "totalProgression").getD (J.num 0) = J.num old_pct ∧
      ¬(|pct - old_pct| < 1 / 1000) ∧
      fs = objSet (ensureLocations (row.locatorCol.getD [])) "locations"
        (J.obj (mutatedLocations lfs pct)) := by
  rcases hG : objGet (ensureLocations (row.locatorCol.getD [])) "locations" with _ | j
  · simp [update_progress, hG] at h
  · cases j with
    | obj lfs =>
        simp only [update_progress, hG] at h
        rcases hO : (objGet lfs "totalProgression").getD (J.num 0) with q | s | b | ⟨⟩ | xs | gs
        all_goals simp only [hO] at h
        case num =>
          by_cases he : |pct - q| < 1 / 1000
          · rw [if_pos he] at h
            exact UpdateResult.noConfusion h
          · rw [if_neg he] at h
            simp only [UpdateResult.write.injEq] at h
            exact ⟨h.2.1.symm, h.2.2.symm, lfs, q, rfl, hO, he, h.1.symm⟩
        all_goals exact UpdateResult.noConfusion h
    | num q => simp [update_progress, hG] at h
    | str s => simp [update_progress, hG] at h
    | bool b => simp [update_progress, hG] at h
    | null => simp [update_progress, hG] at h
    | arr xs => simp [update_progress, hG] at h

/-- Locations object stored in a locator: the JSON object under the
`locations` key, the empty object when the key is missing or holds a
non-object value. -/
def locationsOf (locator : List (String × J)) : List (String × J) :=
  match objGet locator "locations" with
  | some (J.obj lfs) => lfs
  | _ => []

theorem objGet_ensureLocations_ne (l : List (String × J)) (k : String)
    (h : k ≠ "locations") : objGet (ensureLocations l) k = objGet l k := by
  unfold ensureLocations
  by_cases hn : (objGet l "locations").isNone
  · rw [if_pos hn, objGet_objSet_ne l "locations" k _ h]
  · rw [if_neg hn]

theorem ensureLocations_of_isSome (l : List (String × J)) (v : J)
    (h : objGet l "locations" = some v) : ensureLocations l = l := by
  unfold ensureLocations
  rw [h]
  rfl

theorem locationsOf_ensure (l : List (String × J)) (lfs : List (String × J))
    (h : objGet (ensureLocations l) "locations" = some (J.obj lfs)) :
    lfs = locationsOf l := by
  unfold ensureLocations at h
  unfold locationsOf
  rcases hg : objGet l "locations" with _ | v
  · rw [hg] at h
    simp only [Option.isNone_none, if_pos] at h
    rw [objGet_objSet_self] at h
    simp only [Option.some.injEq, J.obj.injEq] at h
    exact h.symm
  · rw [hg] at h
    simp only [Option.isNone_some, Bool.false_eq_true, if_false] at h
    rw [hg] at h
    simp only [Option.some.injEq] at h
    cases v <;> simp_all

/-- Timestamp of a `force_position_update` write: the final expression of
the function is a single `write` whose timestamp is `now_ms + 60000`,
whatever locator it carries. -/
theorem force_position_update_ts (row : PositionRow) (now_ms : ℤ) (pct : ℚ)
    (href : Option String) :
    writtenTs (force_position_update (some row) now_ms pct href) = now_ms + 60000 := rfl

/-- A `force_position_update` on an existing row always mutates storage. -/
theorem force_position_update_isWrite (row : PositionRow) (now_ms : ℤ) (pct : ℚ)
    (href : Option String) :
    isWrite (force_position_update (some row) now_ms pct href) = true := rfl

/-- C3 counterexample: the claim states that BOTH arbiter tiers compute
`new_logical_ts = max(wall_clock_ms(), existing_logical_ts) + LEAP_MS`
and hence strictly exceed `existing_logical_ts + LEAP_MS - 1`.  The
force tier (`force_position_update`) computes `now_ms + 60000` without
consulting the existing timestamp: with wall clock 0 and an existing
logical timestamp of 1000000, the written timestamp is 60000, which is
neither `max(0, 1000000) + 60000` nor above `1000000 + 60000 - 1`. -/
theorem force_leap_ignores_existing_ts_cex :
    writtenTs (force_position_update (some ⟨"p1", some [], 1000000⟩) 0 (1 / 2) none) = 60000 ∧
    isWrite (force_position_update (some ⟨"p1", some [], 1000000⟩) 0 (1 / 2) none) = true ∧
    ¬(1000000 + 60000 - 1 < (60000 : ℤ)) ∧
    (60000 : ℤ) ≠ max 0 1000000 + 60000 := by
  refine ⟨rfl, rfl, by decide, by decide⟩

/-- C3 amended: the normal tier (`update_progress`) writes
`max(now_ms, existing_ts) + 10000`, which strictly exceeds both
`existing_ts + 10000 - 1` and the wall clock; the force tier
(`force_position_update`) writes `now_ms + 60000`, which strictly
exceeds the wall clock but is computed without regard to the existing
logical timestamp. -/
theorem leapfrog_timestamps (row : PositionRow) (now_ms : ℤ) (pct : ℚ) (href : Option String)
    (fs : List (String × J)) (ts : ℤ) (u : String)
    (hw : update_progress (some row) now_ms pct = .write fs ts u) :
    ts = max now_ms row.timestamp + 10000 ∧
    row.timestamp + 10000 - 1 < ts ∧
    now_ms < ts ∧
    writtenTs (force_position_update (some row) now_ms pct href) = now_ms + 60000 ∧
    now_ms < writtenTs (force_position_update (some row) now_ms pct href) := by
  obtain ⟨hts, -, -⟩ := update_progress_write_eq row now_ms pct fs ts u hw
  have h1 := le_max_left now_ms row.timestamp
  have h2 := le_max_right now_ms row.timestamp
  rw [force_position_update_ts]
  exact ⟨hts, by omega, by omega, rfl, by omega⟩

/-- C3 witness: with wall clock 5000 ms and an existing row timestamp of
600 ms, the normal tier writes 15000 = max(5000, 600) + 10000, and the
force tier writes 65000 = 5000 + 60000. -/
theorem leapfrog_timestamps_witness :
    update_progress
        (some ⟨"u1", some [("locations", J.obj [("totalProgression", J.num 0)])], 600⟩)
        5000 (1 / 2) =
      .write [("locations", J.obj [("totalProgression", J.num (1 / 2))])] 15000 "u1" ∧
    ((15000 : ℤ) = max 5000 600 + 10000 ∧
      600 + 10000 - 1 < (15000 : ℤ) ∧
      (5000 : ℤ) < 15000 ∧
      writtenTs (force_position_update
        (some ⟨"u1", some [("locations", J.obj [("totalProgression", J.num 0)])], 600⟩)
        5000 (1 / 2) none) = 5000 + 60000 ∧
      (5000 : ℤ) < writtenTs (force_position_update
        (some ⟨"u1", some [("locations", J.obj [("totalProgression", J.num 0)])], 600⟩)
        5000 (1 / 2) none)) := by
  have hw : update_progress
      (some ⟨"u1", some [("locations", J.obj [("totalProgression", J.num 0)])], 600⟩)
      5000 (1 / 2) =
      .write [("locations", J.obj [("totalProgression", J.num (1 / 2))])] 15000 "u1" := by
    norm_num [update_progress, ensureLocations, mutatedLocations, anchorKeys, objGet, objSet,
      objDel, Option.getD, Option.isNone]
    rw [if_neg (show ¬(|(1 : ℚ) / 2| < 1 / 1000) by rw [abs_of_nonneg (by norm_num)]; norm_num),
      if_neg (show ("totalProgression" : String) ≠ "progression" by decide)]
  exact ⟨hw, leapfrog_timestamps _ 5000 (1 / 2) none _ 15000 "u1" hw⟩

/-- After a write of target `p1`, a second call with a target within
epsilon of `p1` reads back `totalProgression = p1` and takes the skip
branch. -/
theorem update_progress_second_skip (row : PositionRow) (now1 now2 : ℤ) (p1 p2 : ℚ)
    (fs : List (String × J)) (ts : ℤ) (u : String)
    (hw : update_progress (some row) now1 p1 = .write fs ts u)
    (heps : |p2 - p1| < 1 / 1000) :
    update_progress (some (applyUpdate row (UpdateResult.write fs ts u))) now2 p2 = .skip := by
  obtain ⟨hts, hu, lfs, old, hG, hO, hne, hfs⟩ := update_progress_write_eq row now1 p1 fs ts u hw
  subst hu
  subst hfs
  have hloc : objGet (objSet (ensureLocations (row.locatorCol.getD [])) "locations"
      (J.obj (mutatedLocations lfs p1))) "locations" =
      some (J.obj (mutatedLocations lfs p1)) := objGet_objSet_self _ _ _
  have hens := ensureLocations_of_isSome _ _ hloc
  have htp : objGet (mutatedLocations lfs p1) "totalProgression" = some (J.num p1) := by
    unfold mutatedLocations
    rw [objGet_foldl_objDel_not_mem _ _ _ (by decide), objGet_objSet_self]
  have heps' : |p2 - p1| < (1000 : ℚ)⁻¹ := by rwa [one_div] at heps
  simp [update_progress, applyUpdate, hens, hloc, htp, heps, heps']

/-- C6: conflict-arbiter idempotence.  For a book with an existing
position row, two consecutive `update_progress` calls whose target
percentages agree within the 0.001 epsilon perform at most one actual
storage mutation: whenever the first call mutates storage, the second
call (running against the row the first call wrote) takes the epsilon
short-circuit and returns without writing, so the stored timestamp is
not inflated a second time. -/
theorem update_progress_idempotent (row : PositionRow) (now1 now2 : ℤ) (p1 p2 : ℚ)
    (heps : |p2 - p1| < 1 / 1000) :
    (isWrite (update_progress (some row) now1 p1) = true →
      update_progress (some (applyUpdate row (update_progress (some row) now1 p1)))
        now2 p2 = .skip) ∧
    ¬(isWrite (update_progress (some row) now1 p1) = true ∧
      isWrite (update_progress (some (applyUpdate row (update_progress (some row) now1 p1)))
        now2 p2) = true) := by
  have key : isWrite (update_progress (some row) now1 p1) = true →
      update_progress (some (applyUpdate row (update_progress (some row) now1 p1)))
        now2 p2 = .skip := by
    intro h1
    rcases hAll : update_progress (some row) now1 p1 with _ | _ | _ | ⟨fs, ts, u⟩
    · rw [hAll] at h1
      simp [isWrite] at h1
    · rw [hAll] at h1
      simp [isWrite] at h1
    · rw [hAll] at h1
      simp [isWrite] at h1
    · exact update_progress_second_skip row now1 now2 p1 p2 fs ts u hAll heps
  refine ⟨key, ?_⟩
  rintro ⟨h1, h2⟩
  rw [key h1] at h2
  simp [isWrite] at h2

/-- C6 witness: with an existing row holding `totalProgression = 0`, a
first call writing one half followed by a second call targeting the same
one half results in the second call skipping. -/
theorem update_progress_idempotent_witness :
    |(1 / 2 : ℚ) - 1 / 2| < 1 / 1000 ∧
    isWrite (update_progress
      (some ⟨"u2", some [("locations", J.obj [("totalProgression", J.num 0)])], 600⟩)
      5000 (1 / 2)) = true ∧
    update_progress
      (some (applyUpdate ⟨"u2", some [("locations", J.obj [("totalProgression", J.num 0)])], 600⟩
        (update_progress
          (some ⟨"u2", some [("locations", J.obj [("totalProgression", J.num 0)])], 600⟩)
          5000 (1 / 2))))
      9000 (1 / 2) = .skip := by
  have hw : update_progress
      (some ⟨"u2", some [("locations", J.obj [("totalProgression", J.num 0)])], 600⟩)
      5000 (1 / 2) =
      .write [("locations", J.obj [("totalProgression", J.num (1 / 2))])] 15000 "u2" := by
    norm_num [update_progress, ensureLocations, mutatedLocations, anchorKeys, objGet, objSet,
      objDel, Option.getD, Option.isNone]
    rw [if_neg (show ¬(|(1 : ℚ) / 2| < 1 / 1000) by rw [abs_of_nonneg (by norm_num)]; norm_num),
      if_neg (show ("totalProgression" : String) ≠ "progression" by decide)]
  refine ⟨by norm_num, by rw [hw]; rfl, ?_⟩
  exact (update_progress_idempotent _ 5000 9000 (1 / 2) (1 / 2) (by norm_num)).1
    (by rw [hw]; rfl)

/-- C9: frame conditions of the conflict-arbiter write.  A `write`
outcome over an existing position row (with well-formed, duplicate-free
locations keys, as JSON objects are) is keyed by the fetched row uuid
and carries the new logical timestamp; outside the `locations` entry the
locator is unchanged (in particular `href` and `type`); inside it, the
coarse `totalProgression` becomes the new percentage, the four
fine-grained anchor keys are absent, and every other key keeps its
value. -/
theorem update_progress_frame (row : PositionRow) (now_ms : ℤ) (pct : ℚ)
    (fs : List (String × J)) (ts : ℤ) (u : String)
    (hnd : ((locationsOf (row.locatorCol.getD [])).map Prod.fst).Nodup)
    (h : update_progress (some row) now_ms pct = .write fs ts u) :
    u = row.uuid ∧
    ts = max now_ms row.timestamp + 10000 ∧
    (∀ k, k ≠ "locations" → objGet fs k = objGet (row.locatorCol.getD []) k) ∧
    objGet fs "locations" =
      some (J.obj (mutatedLocations (locationsOf (row.locatorCol.getD [])) pct)) ∧
    objGet (mutatedLocations (locationsOf (row.locatorCol.getD [])) pct) "totalProgression" =
      some (J.num pct) ∧
    (∀ k, k ∈ anchorKeys →
      objGet (mutatedLocations (locationsOf (row.locatorCol.getD [])) pct) k = none) ∧
    (∀ k, k ≠ "totalProgression" → k ∉ anchorKeys →
      objGet (mutatedLocations (locationsOf (row.locatorCol.getD [])) pct) k =
        objGet (locationsOf (row.locatorCol.getD [])) k) := by
  obtain ⟨hts, hu, lfs, old, hG, hO, hne, hfs⟩ := update_progress_write_eq row now_ms pct fs ts u h
  have hl : lfs = locationsOf (row.locatorCol.getD []) := locationsOf_ensure _ _ hG
  subst hl
  subst hfs
  refine ⟨hu, hts, ?_, ?_, ?_, ?_, ?_⟩
  · intro k hk
    rw [objGet_objSet_ne _ _ _ _ hk, objGet_ensureLocations_ne _ _ hk]
  · rw [objGet_objSet_self]
  · unfold mutatedLocations
    rw [objGet_foldl_objDel_not_mem _ _ _ (by decide), objGet_objSet_self]
  · intro k hk
    unfold mutatedLocations
    exact objGet_foldl_objDel_mem _ _ _ (nodup_keys_objSet _ _ _ hnd) hk
  · intro k hk1 hk2
    unfold mutatedLocations
    rw [objGet_foldl_objDel_not_mem _ _ _ hk2, objGet_objSet_ne _ _ _ _ hk1]

/-- C9 witness: a locator carrying `href`, `type` and a locations object
with a `cssSelector` anchor and an `extra` key; the write keeps `href`
and `type`, replaces `totalProgression`, and drops the anchor. -/
theorem update_progress_frame_witness :
    (((locationsOf [("href", J.str "ch1.xhtml"), ("type", J.str "application/xhtml+xml"),
        ("locations", J.obj [("totalProgression", J.num 0), ("cssSelector", J.str "#p12"),
          ("extra", J.num 7)])]).map Prod.fst).Nodup) ∧
    update_progress
      (some ⟨"u9", some [("href", J.str "ch1.xhtml"), ("type", J.str "application/xhtml+xml"),
        ("locations", J.obj [("totalProgression", J.num 0), ("cssSelector", J.str "#p12"),
          ("extra", J.num 7)])], 600⟩)
      5000 (1 / 2) =
      .write [("href", J.str "ch1.xhtml"), ("type", J.str "application/xhtml+xml"),
        ("locations", J.obj [("totalProgression", J.num (1 / 2)), ("extra", J.num 7)])]
        15000 "u9" ∧
    objGet [("href", J.str "ch1.xhtml"), ("type", J.str "application/xhtml+xml"),
        ("locations", J.obj [("totalProgression", J.num (1 / 2)), ("extra", J.num 7)])] "href" =
      objGet [("href", J.str "ch1.xhtml"), ("type", J.str "application/xhtml+xml"),
        ("locations", J.obj [("totalProgression", J.num 0), ("cssSelector", J.str "#p12"),
          ("extra", J.num 7)])] "href" ∧
    objGet (mutatedLocations (locationsOf [("href", J.str "ch1.xhtml"),
        ("type", J.str "application/xhtml+xml"),
        ("locations", J.obj [("totalProgression", J.num 0), ("cssSelector", J.str "#p12"),
          ("extra", J.num 7)])]) (1 / 2)) "totalProgression" = some (J.num (1 / 2)) ∧
    objGet (mutatedLocations (locationsOf [("href", J.str "ch1.xhtml"),
        ("type", J.str "application/xhtml+xml"),
        ("locations", J.obj [("totalProgression", J.num 0), ("cssSelector", J.str "#p12"),
          ("extra", J.num 7)])]) (1 / 2)) "cssSelector" = none := by
  have hnd : (((locationsOf [("href", J.str "ch1.xhtml"), ("type", J.str "application/xhtml+xml"),
      ("locations", J.obj [("totalProgression", J.num 0), ("cssSelector", J.str "#p12"),
        ("extra", J.num 7)])]).map Prod.fst).Nodup) := by decide
  have hw : update_progress
      (some ⟨"u9", some [("href", J.str "ch1.xhtml"), ("type", J.str "application/xhtml+xml"),
        ("locations", J.obj [("totalProgression", J.num 0), ("cssSelector", J.str "#p12"),
          ("extra", J.num 7)])], 600⟩)
      5000 (1 / 2) =
      .write [("href", J.str "ch1.xhtml"), ("type", J.str "application/xhtml+xml"),
        ("locations", J.obj [("totalProgression", J.num (1 / 2)), ("extra", J.num 7)])]
        15000 "u9" := by
    simp +decide [update_progress, ensureLocations, mutatedLocations, anchorKeys, objGet, objSet,
      objDel, Option.getD, Option.isNone]
    rw [abs_of_nonneg (by norm_num : (0 : ℚ) ≤ 2⁻¹)]
    norm_num
  have main := update_progress_frame
    ⟨"u9", some [("href", J.str "ch1.xhtml"), ("type", J.str "application/xhtml+xml"),
      ("locations", J.obj [("totalProgression", J.num 0), ("cssSelector", J.str "#p12"),
        ("extra", J.num 7)])], 600⟩
    5000 (1 / 2)
    [("href", J.str "ch1.xhtml"), ("type", J.str "application/xhtml+xml"),
      ("locations", J.obj [("totalProgression", J.num (1 / 2)), ("extra", J.num 7)])]
    15000 "u9" hnd hw
  exact ⟨hnd, hw, main.2.2.1 "href" (by decide), main.2.2.2.2.1,
    main.2.2.2.2.2.1 "cssSelector" (by decide)⟩

/-- C1: the spec states that a mapping found in status `processing` at
process startup is reset to `active` by the crash-recovery step, and that
no mapping is left in `processing` afterwards.  The code resets only the
status string `crashed` — a status no code path ever assigns — so a
mapping stuck in `processing` (the status actually assigned before the
crash-prone one-time setup in `check_pending_jobs`) survives startup
recovery unchanged, while a hypothetical `crashed` mapping would be
reset.  This theorem evaluates `cleanup_stale_jobs` at both inputs. -/
theorem cleanup_stale_jobs_leaves_processing :
    cleanup_stale_jobs [{ status := "processing" }] = [{ status := "processing" }] ∧
    cleanup_stale_jobs [{ status := "crashed" }] = [{ status := "active" }] := by
  constructor <;> rfl

/-- C8: normalization of an audio position divides the seconds by the
transcript duration and clamps to `[0, 1]`; a zero or unknown duration
(including an unreadable transcript file) yields `none`, never zero. -/
theorem abs_to_percentage_spec (s : ℚ) (tf : TranscriptFile) :
    (0 < get_transcript_duration tf →
      abs_to_percentage s tf = some (min (max (s / get_transcript_duration tf) 0) 1) ∧
      ∀ p, abs_to_percentage s tf = some p → 0 ≤ p ∧ p ≤ 1) ∧
    (get_transcript_duration tf ≤ 0 → abs_to_percentage s tf = none) := by
  constructor
  · intro h
    constructor
    · simp [abs_to_percentage, h]
    · intro p hp
      simp only [abs_to_percentage, if_pos h, Option.some.injEq] at hp
      subst hp
      constructor
      · exact le_min (le_max_right _ _) zero_le_one
      · exact min_le_right _ _
  · intro h
    simp [abs_to_percentage, not_lt.mpr h]

/-- C8 witness: a 3600-second transcript normalizes 1800 seconds to one
half, and an unreadable transcript yields `none`. -/
theorem abs_to_percentage_spec_witness :
    (0 : ℚ) < get_transcript_duration (TranscriptFile.segments [⟨0, 3600, "intro"⟩]) ∧
    abs_to_percentage 1800 (TranscriptFile.segments [⟨0, 3600, "intro"⟩]) = some (1 / 2) ∧
    get_transcript_duration TranscriptFile.unreadable ≤ 0 ∧
    abs_to_percentage 1800 TranscriptFile.unreadable = none := by
  have hdur : get_transcript_duration (TranscriptFile.segments [⟨0, 3600, "intro"⟩]) = 3600 := rfl
  refine ⟨by rw [hdur]; norm_num, ?_, le_of_eq rfl, ?_⟩
  · have h := (abs_to_percentage_spec 1800 (TranscriptFile.segments [⟨0, 3600, "intro"⟩])).1
      (by rw [hdur]; norm_num)
    rw [h.1, hdur]
    norm_num
  · exact (abs_to_percentage_spec 1800 TranscriptFile.unreadable).2 (le_of_eq rfl)

theorem pyMaxBySnd_cons_isSome (p : Source × ℚ) (rest : List (Source × ℚ)) :
    ∃ q, pyMaxBySnd (p :: rest) = some q := by
  rcases hr : pyMaxBySnd rest with _ | r
  · exact ⟨p, by simp only [pyMaxBySnd, hr]⟩
  · by_cases hgt : r.2 > p.2
    · exact ⟨r, by simp only [pyMaxBySnd, hr]; rw [if_pos hgt]⟩
    · exact ⟨p, by simp only [pyMaxBySnd, hr]; rw [if_neg hgt]⟩

theorem pyMaxBySnd_eq_none (l : List (Source × ℚ)) (h : pyMaxBySnd l = none) : l = [] := by
  cases l with
  | nil => rfl
  | cons p rest =>
      exfalso
      obtain ⟨q, hq⟩ := pyMaxBySnd_cons_isSome p rest
      rw [hq] at h
      cases h

theorem pyMaxBySnd_mem : ∀ (l : List (Source × ℚ)) (q : Source × ℚ),
    pyMaxBySnd l = some q → q ∈ l := by
  intro l
  induction l with
  | nil => intro q h; cases h
  | cons p rest ih =>
      intro q h
      rcases hr : pyMaxBySnd rest with _ | r
      · simp only [pyMaxBySnd, hr, Option.some.injEq] at h
        simp [← h]
      · simp only [pyMaxBySnd, hr] at h
        by_cases hgt : r.2 > p.2
        · rw [if_pos hgt] at h
          simp only [Option.some.injEq] at h
          exact List.mem_cons_of_mem p (h ▸ ih r hr)
        · rw [if_neg hgt] at h
          simp only [Option.some.injEq] at h
          simp [← h]

theorem pyMaxBySnd_le : ∀ (l : List (Source × ℚ)) (q : Source × ℚ),
    pyMaxBySnd l = some q → ∀ p ∈ l, p.2 ≤ q.2 := by
  intro l
  induction l with
  | nil => intro q h; cases h
  | cons p rest ih =>
      intro q h x hx
      rcases hr : pyMaxBySnd rest with _ | r
      · simp only [pyMaxBySnd, hr, Option.some.injEq] at h
        subst h
        rcases List.mem_cons.mp hx with h | h
        · exact le_of_eq (congrArg Prod.snd h)
        · rw [pyMaxBySnd_eq_none rest hr] at h
          cases h
      · simp only [pyMaxBySnd, hr] at h
        by_cases hgt : r.2 > p.2
        · rw [if_pos hgt] at h
          simp only [Option.some.injEq] at h
          have hq2 : q.2 = r.2 := (congrArg Prod.snd h).symm
          rw [hq2]
          rcases List.mem_cons.mp hx with hx' | hx'
          · rw [hx']
            exact le_of_lt hgt
          · exact ih r hr x hx'
        · rw [if_neg hgt] at h
          simp only [Option.some.injEq] at h
          subst h
          rcases List.mem_cons.mp hx with h | h
          · exact le_of_eq (congrArg Prod.snd h)
          · exact le_trans (ih r hr x h) (not_lt.mp hgt)

/-- C2 counterexample: the claim states that EVERY source whose reading
is unavailable this cycle is excluded from the leader-selection
candidate set rather than entered with position zero.  With a failed
KoSync read (its client catches the error and returns 0.0) and a healthy
transcript, the KOSYNC source appears in the candidate set with position
exactly 0. -/
theorem failed_read_enters_candidates_cex :
    (Source.KOSYNC, (0 : ℚ)) ∈
      cycle_candidates ⟨some 1800, none, some (1 / 2)⟩
        (TranscriptFile.segments [⟨0, 3600, "talk"⟩]) ∧
    cycle_leader ⟨some 1800, none, some (1 / 2)⟩
        (TranscriptFile.segments [⟨0, 3600, "talk"⟩]) = (Source.STORYTELLER, 1 / 2) := by
  have habs : abs_to_percentage (1800 : ℚ)
      (TranscriptFile.segments [⟨0, 3600, "talk"⟩]) = some (1 / 2) := by
    simp only [abs_to_percentage, get_transcript_duration]
    norm_num
  have hcand : cycle_candidates ⟨some 1800, none, some (1 / 2)⟩
      (TranscriptFile.segments [⟨0, 3600, "talk"⟩]) =
      [(Source.KOSYNC, 0), (Source.STORYTELLER, 1 / 2), (Source.ABS, 1 / 2)] := by
    simp [cycle_candidates, KoSyncClient_get_progress, ABSClient_get_progress, habs]
  constructor
  · rw [hcand]
    simp
  · rw [cycle_leader, hcand]
    norm_num [pyMaxBySnd]

/-- C2 amended: only the audio source is ever excluded from candidacy,
and exactly when its normalized position is indeterminate (transcript
duration unknown or zero); the percentage sources are always candidates,
a failed read entering as position 0.0 because their clients map
failures to the 0.0 default.  The selected leader is a candidate whose
value is maximal over the candidate set. -/
theorem cycle_candidates_spec (reads : RawReads) (tf : TranscriptFile) :
    (Source.ABS ∈ (cycle_candidates reads tf).map Prod.fst ↔
      0 < get_transcript_duration tf) ∧
    (Source.KOSYNC, KoSyncClient_get_progress reads.koHttp) ∈ cycle_candidates reads tf ∧
    (Source.STORYTELLER, reads.stRow.getD 0) ∈ cycle_candidates reads tf ∧
    cycle_leader reads tf ∈ cycle_candidates reads tf ∧
    (∀ p ∈ cycle_candidates reads tf, p.2 ≤ (cycle_leader reads tf).2) := by
  have hleader : ∃ q, pyMaxBySnd (cycle_candidates reads tf) = some q := by
    unfold cycle_candidates
    exact pyMaxBySnd_cons_isSome _ _
  obtain ⟨q, hq⟩ := hleader
  have hcl : cycle_leader reads tf = q := by
    rw [cycle_leader, hq]
    rfl
  refine ⟨?_, ?_, ?_, ?_, ?_⟩
  · rcases hp : abs_to_percentage (ABSClient_get_progress reads.absHttp) tf with _ | p
    · have hd : ¬0 < get_transcript_duration tf := by
        intro hd
        simp only [abs_to_percentage, if_pos hd] at hp
        exact Option.noConfusion hp
      simp only [cycle_candidates, hp]
      simp [hd]
    · have hd : 0 < get_transcript_duration tf := by
        by_contra hd
        simp only [abs_to_percentage, if_neg hd] at hp
        exact Option.noConfusion hp
      simp only [cycle_candidates, hp]
      simp [hd]
  · simp [cycle_candidates]
  · simp [cycle_candidates]
  · rw [hcl]
    exact pyMaxBySnd_mem _ q hq
  · intro p hp
    rw [hcl]
    exact pyMaxBySnd_le _ q hq p hp

/-- C2 amended witness: with all three reads healthy and a valid 3600
second transcript, all three sources are candidates and the leader bound
holds; evaluated at the concrete reads (some 1800, some 0.25, some 0.5). -/
theorem cycle_candidates_spec_witness :
    ((Source.ABS ∈ (cycle_candidates ⟨some 1800, some (1 / 4), some (1 / 2)⟩
        (TranscriptFile.segments [⟨0, 3600, "talk"⟩])).map Prod.fst ↔
      0 < get_transcript_duration (TranscriptFile.segments [⟨0, 3600, "talk"⟩])) ∧
    (Source.KOSYNC, KoSyncClient_get_progress (some (1 / 4))) ∈
      cycle_candidates ⟨some 1800, some (1 / 4), some (1 / 2)⟩
        (TranscriptFile.segments [⟨0, 3600, "talk"⟩]) ∧
    (Source.STORYTELLER, (some (1 / 2) : Option ℚ).getD 0) ∈
      cycle_candidates ⟨some 1800, some (1 / 4), some (1 / 2)⟩
        (TranscriptFile.segments [⟨0, 3600, "talk"⟩]) ∧
    cycle_leader ⟨some 1800, some (1 / 4), some (1 / 2)⟩
        (TranscriptFile.segments [⟨0, 3600, "talk"⟩]) ∈
      cycle_candidates ⟨some 1800, some (1 / 4), some (1 / 2)⟩
        (TranscriptFile.segments [⟨0, 3600, "talk"⟩]) ∧
    (∀ p ∈ cycle_candidates ⟨some 1800, some (1 / 4), some (1 / 2)⟩
        (TranscriptFile.segments [⟨0, 3600, "talk"⟩]),
      p.2 ≤ (cycle_leader ⟨some 1800, some (1 / 4), some (1 / 2)⟩
        (TranscriptFile.segments [⟨0, 3600, "talk"⟩])).2)) :=
  cycle_candidates_spec ⟨some 1800, some (1 / 4), some (1 / 2)⟩
    (TranscriptFile.segments [⟨0, 3600, "talk"⟩])

/-- C5: drift suppression.  When no source moved beyond its configured
threshold since the stored baseline (absolute seconds for the audio
source, fractional for the two percentage sources), the cycle issues no
propagation write to any source, yet the stored baselines are
overwritten with the current readings (and `last_updated` is carried
over). -/
theorem sync_cycle_suppressed (th : Thresholds) (co : Collaborators) (tf : TranscriptFile)
    (reads : RawReads) (prev : PrevState) (now : ℚ)
    (habs : |ABSClient_get_progress reads.absHttp - prev.abs_ts| ≤ th.delta_abs)
    (hko : |KoSyncClient_get_progress reads.koHttp - prev.kosync_pct| ≤ th.delta_pct)
    (hst : |reads.stRow.getD 0 - prev.storyteller_pct| ≤ th.delta_pct) :
    (sync_cycle_step th co tf reads prev now).writes = [] ∧
    (sync_cycle_step th co tf reads prev now).newState =
      { abs_ts := ABSClient_get_progress reads.absHttp,
        abs_pct := (abs_to_percentage (ABSClient_get_progress reads.absHttp) tf).getD 0,
        kosync_pct := KoSyncClient_get_progress reads.koHttp,
        storyteller_pct := reads.stRow.getD 0,
        last_updated := prev.last_updated } := by
  have hcond : ¬(|ABSClient_get_progress reads.absHttp - prev.abs_ts| > th.delta_abs ∨
      |KoSyncClient_get_progress reads.koHttp - prev.kosync_pct| > th.delta_pct ∨
      |reads.stRow.getD 0 - prev.storyteller_pct| > th.delta_pct) := by
    rintro (h | h | h)
    · exact absurd h (not_lt.mpr habs)
    · exact absurd h (not_lt.mpr hko)
    · exact absurd h (not_lt.mpr hst)
  simp only [sync_cycle_step, if_pos hcond]
  simp

/-- C5 witness: audio drifted 30 of 60 allowed seconds, both percentage
sources unchanged; the cycle issues no write, refreshes the baselines
and keeps `last_updated = 42`. -/
theorem sync_cycle_suppressed_witness :
    |ABSClient_get_progress (some 100) - (70 : ℚ)| ≤ 60 ∧
    |KoSyncClient_get_progress (some (1 / 2)) - (1 / 2 : ℚ)| ≤ 1 / 100 ∧
    |((some (1 / 2) : Option ℚ).getD 0) - (1 / 2 : ℚ)| ≤ 1 / 100 ∧
    ((sync_cycle_step ⟨60, 1 / 100⟩
        ⟨fun _ => none, fun _ => (none, none), fun _ => none, fun _ => none, none, none, false⟩
        (TranscriptFile.segments [⟨0, 3600, "talk"⟩])
        ⟨some 100, some (1 / 2), some (1 / 2)⟩
        ⟨70, 0, 1 / 2, 1 / 2, 42⟩ 99).writes = [] ∧
      (sync_cycle_step ⟨60, 1 / 100⟩
        ⟨fun _ => none, fun _ => (none, none), fun _ => none, fun _ => none, none, none, false⟩
        (TranscriptFile.segments [⟨0, 3600, "talk"⟩])
        ⟨some 100, some (1 / 2), some (1 / 2)⟩
        ⟨70, 0, 1 / 2, 1 / 2, 42⟩ 99).newState =
        { abs_ts := ABSClient_get_progress (some 100),
          abs_pct := (abs_to_percentage (ABSClient_get_progress (some 100))
            (TranscriptFile.segments [⟨0, 3600, "talk"⟩])).getD 0,
          kosync_pct := KoSyncClient_get_progress (some (1 / 2)),
          storyteller_pct := (some (1 / 2) : Option ℚ).getD 0,
          last_updated := 42 }) := by
  have h1 : |ABSClient_get_progress (some 100) - (70 : ℚ)| ≤ 60 := by
    simp only [ABSClient_get_progress, Option.getD_some]
    rw [show (100 : ℚ) - 70 = 30 by norm_num, abs_of_nonneg (by norm_num : (0 : ℚ) ≤ 30)]
    norm_num
  have h2 : |KoSyncClient_get_progress (some (1 / 2)) - (1 / 2 : ℚ)| ≤ 1 / 100 := by
    simp only [KoSyncClient_get_progress, Option.getD_some]
    rw [show (1 : ℚ) / 2 - 1 / 2 = 0 by norm_num]
    norm_num
  have h3 : |((some (1 / 2) : Option ℚ).getD 0) - (1 / 2 : ℚ)| ≤ 1 / 100 := by
    simp only [Option.getD_some]
    rw [show (1 : ℚ) / 2 - 1 / 2 = 0 by norm_num]
    norm_num
  exact ⟨h1, h2, h3,
    sync_cycle_suppressed ⟨60, 1 / 100⟩
      ⟨fun _ => none, fun _ => (none, none), fun _ => none, fun _ => none, none, none, false⟩
      (TranscriptFile.segments [⟨0, 3600, "talk"⟩])
      ⟨some 100, some (1 / 2), some (1 / 2)⟩
      ⟨70, 0, 1 / 2, 1 / 2, 42⟩ 99 h1 h2 h3⟩

/-- C10: the persisted `last_updated` field.  On a drift-suppressed
cycle the stored entry keeps the previous `last_updated` (only the
position baselines are refreshed); on a cycle that selects a leader and
attempts propagation, `last_updated` is set to the current wall clock,
whether or not the propagation succeeded.  So `last_updated` records the
last non-suppressed reconciliation, not the last cycle. -/
theorem sync_cycle_last_updated (th : Thresholds) (co : Collaborators) (tf : TranscriptFile)
    (reads : RawReads) (prev : PrevState) (now : ℚ) :
    (¬(|ABSClient_get_progress reads.absHttp - prev.abs_ts| > th.delta_abs ∨
        |KoSyncClient_get_progress reads.koHttp - prev.kosync_pct| > th.delta_pct ∨
        |reads.stRow.getD 0 - prev.storyteller_pct| > th.delta_pct) →
      (sync_cycle_step th co tf reads prev now).newState.last_updated = prev.last_updated) ∧
    ((|ABSClient_get_progress reads.absHttp - prev.abs_ts| > th.delta_abs ∨
        |KoSyncClient_get_progress reads.koHttp - prev.kosync_pct| > th.delta_pct ∨
        |reads.stRow.getD 0 - prev.storyteller_pct| > th.delta_pct) →
      (sync_cycle_step th co tf reads prev now).newState.last_updated = now) := by
  constructor
  · intro hcond
    simp only [sync_cycle_step, if_pos hcond]
  · intro hcond
    have hnn : ¬¬(|ABSClient_get_progress reads.absHttp - prev.abs_ts| > th.delta_abs ∨
        |KoSyncClient_get_progress reads.koHttp - prev.kosync_pct| > th.delta_pct ∨
        |reads.stRow.getD 0 - prev.storyteller_pct| > th.delta_pct) := not_not_intro hcond
    simp only [sync_cycle_step, if_neg hnn]

/-- C10 witness: a cycle with the audio source 500 seconds past a 60
second threshold attempts propagation (here the oracle finds no text, so
propagation fails) and still stamps `last_updated` with the current
time 99; a suppressed cycle keeps the stored 42. -/
theorem sync_cycle_last_updated_witness :
    ((|ABSClient_get_progress (some 500) - (0 : ℚ)| > (60 : ℚ) ∨
        |KoSyncClient_get_progress (some 0) - (0 : ℚ)| > (1 / 100 : ℚ) ∨
        |((some 0 : Option ℚ).getD 0) - (0 : ℚ)| > (1 / 100 : ℚ)) ∧
      (sync_cycle_step ⟨60, 1 / 100⟩
        ⟨fun _ => none, fun _ => (none, none), fun _ => none, fun _ => none, none, none, false⟩
        (TranscriptFile.segments [⟨0, 3600, "talk"⟩])
        ⟨some 500, some 0, some 0⟩ ⟨0, 0, 0, 0, 42⟩ 99).newState.last_updated = 99) ∧
    (¬(|ABSClient_get_progress (some 30) - (0 : ℚ)| > (60 : ℚ) ∨
        |KoSyncClient_get_progress (some 0) - (0 : ℚ)| > (1 / 100 : ℚ) ∨
        |((some 0 : Option ℚ).getD 0) - (0 : ℚ)| > (1 / 100 : ℚ)) ∧
      (sync_cycle_step ⟨60, 1 / 100⟩
        ⟨fun _ => none, fun _ => (none, none), fun _ => none, fun _ => none, none, none, false⟩
        (TranscriptFile.segments [⟨0, 3600, "talk"⟩])
        ⟨some 30, some 0, some 0⟩ ⟨0, 0, 0, 0, 42⟩ 99).newState.last_updated = 42) := by
  have habs : |ABSClient_get_progress (some 500) - (0 : ℚ)| > (60 : ℚ) := by
    simp only [ABSClient_get_progress, Option.getD_some, sub_zero]
    rw [abs_of_nonneg (by norm_num : (0 : ℚ) ≤ 500)]
    norm_num
  have hchanged : (|ABSClient_get_progress (some 500) - (0 : ℚ)| > (60 : ℚ) ∨
      |KoSyncClient_get_progress (some 0) - (0 : ℚ)| > (1 / 100 : ℚ) ∨
      |((some 0 : Option ℚ).getD 0) - (0 : ℚ)| > (1 / 100 : ℚ)) := Or.inl habs
  have hquiet : ¬(|ABSClient_get_progress (some 30) - (0 : ℚ)| > (60 : ℚ) ∨
      |KoSyncClient_get_progress (some 0) - (0 : ℚ)| > (1 / 100 : ℚ) ∨
      |((some 0 : Option ℚ).getD 0) - (0 : ℚ)| > (1 / 100 : ℚ)) := by
    rintro (h | h | h)
    · simp only [ABSClient_get_progress, Option.getD_some, sub_zero] at h
      rw [abs_of_nonneg (by norm_num : (0 : ℚ) ≤ 30)] at h
      exact absurd h (by norm_num)
    · simp only [KoSyncClient_get_progress, Option.getD_some, sub_zero] at h
      rw [abs_of_nonneg (le_refl 0)] at h
      exact absurd h (by norm_num)
    · simp only [Option.getD_some, sub_zero] at h
      rw [abs_of_nonneg (le_refl 0)] at h
      exact absurd h (by norm_num)
  constructor
  · exact ⟨hchanged,
      (sync_cycle_last_updated ⟨60, 1 / 100⟩
        ⟨fun _ => none, fun _ => (none, none), fun _ => none, fun _ => none, none, none, false⟩
        (TranscriptFile.segments [⟨0, 3600, "talk"⟩])
        ⟨some 500, some 0, some 0⟩ ⟨0, 0, 0, 0, 42⟩ 99).2 hchanged⟩
  · exact ⟨hquiet,
      (sync_cycle_last_updated ⟨60, 1 / 100⟩
        ⟨fun _ => none, fun _ => (none, none), fun _ => none, fun _ => none, none, none, false⟩
        (TranscriptFile.segments [⟨0, 3600, "talk"⟩])
        ⟨some 30, some 0, some 0⟩ ⟨0, 0, 0, 0, 42⟩ 99).1 hquiet⟩

theorem extractBest_eq_none (scorer : String → String → ℚ) (query : String) :
    ∀ (texts : List String), extractBest scorer query texts = none → texts = [] := by
  intro texts h
  cases texts with
  | nil => rfl
  | cons t ts =>
      exfalso
      rcases hr : extractBest scorer query ts with _ | b
      · simp only [extractBest, hr] at h
        exact Option.noConfusion h
      · simp only [extractBest, hr] at h
        split at h <;> exact Option.noConfusion h

/-- Character of the first-max fold: the returned index is in range, its
score is the returned score, no choice scores higher, and every earlier
choice scores strictly lower. -/
theorem extractBest_spec (scorer : String → String → ℚ) (query : String) :
    ∀ (texts : List String) (s : ℚ) (j : ℕ),
      extractBest scorer query texts = some (s, j) →
      j < texts.length ∧
      (∃ t, texts[j]? = some t ∧ scorer query t = s) ∧
      (∀ (k : ℕ) (t : String), texts[k]? = some t → scorer query t ≤ s) ∧
      (∀ (k : ℕ) (t : String), k < j → texts[k]? = some t → scorer query t < s) := by
  intro texts
  induction texts with
  | nil => intro s j h; cases h
  | cons t ts ih =>
      intro s j h
      rcases hr : extractBest scorer query ts with _ | b
      · have hts : ts = [] := extractBest_eq_none scorer query ts hr
        subst hts
        simp only [extractBest, Option.some.injEq, Prod.mk.injEq] at h
        obtain ⟨hs, hj⟩ := h
        subst hs
        subst hj
        refine ⟨by simp, ⟨t, by simp, rfl⟩, ?_, ?_⟩
        · intro k x hk
          cases k with
          | zero =>
              simp only [List.getElem?_cons_zero, Option.some.injEq] at hk
              exact le_of_eq (congrArg (scorer query) hk.symm)
          | succ k => simp at hk
        · intro k x hk
          omega
      · obtain ⟨bs, bi⟩ := b
        obtain ⟨hbl, ⟨tb, htb, hsb⟩, hble, hblt⟩ := ih bs bi hr
        simp only [extractBest, hr] at h
        by_cases hgt : bs > scorer query t
        · rw [if_pos hgt] at h
          simp only [Option.some.injEq, Prod.mk.injEq] at h
          obtain ⟨hs, hj⟩ := h
          subst hs
          subst hj
          refine ⟨by simpa using hbl, ⟨tb, by simpa using htb, hsb⟩, ?_, ?_⟩
          · intro k x hk
            cases k with
            | zero =>
                simp only [List.getElem?_cons_zero, Option.some.injEq] at hk
                subst hk
                exact le_of_lt hgt
            | succ k =>
                simp only [List.getElem?_cons_succ] at hk
                exact hble k x hk
          · intro k x hklt hk
            cases k with
            | zero =>
                simp only [List.getElem?_cons_zero, Option.some.injEq] at hk
                subst hk
                exact hgt
            | succ k =>
                simp only [List.getElem?_cons_succ] at hk
                exact hblt k x (by omega) hk
        · rw [if_neg hgt] at h
          simp only [Option.some.injEq, Prod.mk.injEq] at h
          obtain ⟨hs, hj⟩ := h
          subst hs
          subst hj
          refine ⟨by simp, ⟨t, by simp, rfl⟩, ?_, ?_⟩
          · intro k x hk
            cases k with
            | zero =>
                simp only [List.getElem?_cons_zero, Option.some.injEq] at hk
                exact le_of_eq (congrArg (scorer query) hk.symm)
            | succ k =>
                simp only [List.getElem?_cons_succ] at hk
                exact le_trans (hble k x hk) (not_lt.mp hgt)
          · intro k x hk
            omega

theorem charsPref_refl : ∀ (l : List Char), charsPref l l = true := by
  intro l
  induction l with
  | nil => rfl
  | cons x xs ih => simp [charsPref, ih]

theorem charsInfix_refl (l : List Char) : charsInfix l l = true := by
  cases l with
  | nil => rfl
  | cons y ys => simp [charsInfix, charsPref_refl]

theorem fuzzScoreModel_self (a : String) : fuzzScoreModel a a = 100 := by
  simp [fuzzScoreModel, charsInfix_refl]

theorem fuzzScoreModel_le (a b : String) : fuzzScoreModel a b ≤ 100 := by
  unfold fuzzScoreModel
  split
  · exact le_refl _
  · norm_num

/-- C4 counterexample: the claim states that for EVERY transcript and
segment index i, `time_for_text(T, T[i].text)` returns a timestamp
within `[T[i].start, T[i].end]`.  On a transcript whose segment 1 text
"abc" also occurs as segment 0, querying the text of segment 1 returns
the start of segment 0 (first occurrence wins the tie at score 100),
which lies outside segment 1 interval [5, 6]. -/
theorem find_time_for_text_duplicate_cex :
    ([⟨0, 1, "abc"⟩, ⟨5, 6, "abc"⟩] : List Segment)[1]? = some ⟨5, 6, "abc"⟩ ∧
    find_time_for_text fuzzScoreModel [⟨0, 1, "abc"⟩, ⟨5, 6, "abc"⟩] "abc" = some 0 ∧
    ¬((5 : ℚ) ≤ 0 ∧ (0 : ℚ) ≤ 6) := by
  refine ⟨rfl, ?_, by norm_num⟩
  have h1 : fuzzScoreModel "abc" "abc" = 100 := fuzzScoreModel_self "abc"
  have h2 : extractBest fuzzScoreModel "abc" ["abc"] = some (100, 0) := by
    simp only [extractBest, h1]
  have h3 : extractBest fuzzScoreModel "abc" ["abc", "abc"] = some (100, 0) := by
    simp only [extractBest, h2, h1]
    norm_num
  simp only [find_time_for_text, List.map_cons, List.map_nil, h3]
  norm_num

/-- C4 amended: querying `find_time_for_text` with the text of segment i
never yields not-found (the self match scores a perfect 100, above the
acceptance threshold 80), and the returned value is the `start` of the
FIRST maximal-scoring segment j, which satisfies j ≤ i; j = i (and hence
the returned start lies in segment i) exactly when no earlier segment
also attains the maximal score — duplicated or containing text can
redirect the result to an earlier segment.  Stated for any scorer that
is bounded by 100 and scores identical strings at 100, as
rapidfuzz partial_ratio does. -/
theorem find_time_for_text_self (scorer : String → String → ℚ)
    (hle : ∀ a b, scorer a b ≤ 100) (hself : ∀ a, scorer a a = 100)
    (data : List Segment) (i : ℕ) (hi : i < data.length) :
    ∃ j sj, j ≤ i ∧ data[j]? = some sj ∧
      find_time_for_text scorer data ((data.get ⟨i, hi⟩).text) = some sj.start ∧
      scorer ((data.get ⟨i, hi⟩).text) sj.text = 100 ∧
      ((∀ (k : ℕ) (sk : Segment), k < i → data[k]? = some sk →
          scorer ((data.get ⟨i, hi⟩).text) sk.text < 100) → j = i) := by
  have hqi : (data.map (·.text))[i]? = some ((data.get ⟨i, hi⟩).text) := by
    rw [List.getElem?_map, List.getElem?_eq_getElem hi]
    rfl
  rcases hE : extractBest scorer ((data.get ⟨i, hi⟩).text) (data.map (·.text)) with _ | b
  · exfalso
    have := extractBest_eq_none _ _ _ hE
    rw [this] at hqi
    cases hqi
  · obtain ⟨s, j⟩ := b
    obtain ⟨hjl, ⟨tj, htj, hstj⟩, hsle, hslt⟩ := extractBest_spec _ _ _ _ _ hE
    have hs100 : s = 100 := by
      have hub : scorer ((data.get ⟨i, hi⟩).text) ((data.get ⟨i, hi⟩).text) ≤ s :=
        hsle i _ hqi
      rw [hself] at hub
      exact le_antisymm (hstj ▸ hle _ tj) hub
    subst hs100
    have hji : j ≤ i := by
      by_contra hji
      have := hslt i _ (by omega) hqi
      rw [hself] at this
      exact absurd this (lt_irrefl 100)
    obtain ⟨sj, hsj, hsjt⟩ : ∃ sj, data[j]? = some sj ∧ sj.text = tj := by
      rw [List.getElem?_map] at htj
      rcases hdj : data[j]? with _ | sj
      · rw [hdj] at htj
        cases htj
      · rw [hdj] at htj
        simp only [Option.map_some', Option.some.injEq] at htj
        exact ⟨sj, rfl, htj⟩
    refine ⟨j, sj, hji, hsj, ?_, ?_, ?_⟩
    · simp only [find_time_for_text, hE]
      rw [if_pos (by norm_num : (100 : ℚ) > 80), hsj]
      rfl
    · rw [hsjt]
      exact hstj
    · intro hall
      by_contra hne
      have hjlt : j < i := lt_of_le_of_ne hji hne
      have := hall j sj hjlt hsj
      rw [hsjt, hstj] at this
      exact absurd this (lt_irrefl 100)

/-- C4 amended witness: on a two-segment transcript with distinct texts,
querying the text of segment 1 returns a timestamp, the matched segment
scores 100, and since no earlier segment attains 100 the matched segment
is segment 1 itself. -/
theorem find_time_for_text_self_witness :
    (∀ a b, fuzzScoreModel a b ≤ 100) ∧
    (∀ a, fuzzScoreModel a a = 100) ∧
    1 < ([⟨0, 1, "hello"⟩, ⟨2, 3, "world"⟩] : List Segment).length ∧
    (∃ j sj, j ≤ 1 ∧ ([⟨0, 1, "hello"⟩, ⟨2, 3, "world"⟩] : List Segment)[j]? = some sj ∧
      find_time_for_text fuzzScoreModel [⟨0, 1, "hello"⟩, ⟨2, 3, "world"⟩]
        ((([⟨0, 1, "hello"⟩, ⟨2, 3, "world"⟩] : List Segment).get
          ⟨1, by norm_num⟩).text) = some sj.start ∧
      fuzzScoreModel ((([⟨0, 1, "hello"⟩, ⟨2, 3, "world"⟩] : List Segment).get
          ⟨1, by norm_num⟩).text) sj.text = 100 ∧
      ((∀ (k : ℕ) (sk : Segment), k < 1 →
          ([⟨0, 1, "hello"⟩, ⟨2, 3, "world"⟩] : List Segment)[k]? = some sk →
          fuzzScoreModel ((([⟨0, 1, "hello"⟩, ⟨2, 3, "world"⟩] : List Segment).get
            ⟨1, by norm_num⟩).text) sk.text < 100) → j = 1)) :=
  ⟨fuzzScoreModel_le, fuzzScoreModel_self, by norm_num,
    find_time_for_text_self fuzzScoreModel fuzzScoreModel_le fuzzScoreModel_self
      [⟨0, 1, "hello"⟩, ⟨2, 3, "world"⟩] 1 (by norm_num)⟩

/-- Sum of the text lengths of segments `l, l+1, ..., r-1`: the quantity
tracked by `current_len` over a contiguous index window. -/
def sumLen (data : List Segment) (l r : ℕ) : ℕ :=
  ((List.range' l (r - l)).map (segLen data)).sum

/-- Total text length of the transcript, the sum of all segment text
lengths. -/
def totalLen (data : List Segment) : ℕ :=
  (data.map (fun sg => sg.text.length)).sum

theorem sumLen_single (data : List Segment) (i : ℕ) :
    sumLen data i (i + 1) = segLen data i := by
  simp [sumLen]

theorem sumLen_prepend (data : List Segment) (l r : ℕ) (h1 : 1 ≤ l) (h2 : l ≤ r) :
    sumLen data (l - 1) r = segLen data (l - 1) + sumLen data l r := by
  have hk : r - (l - 1) = (r - l) + 1 := by omega
  have hstep : l - 1 + 1 = l := by omega
  rw [sumLen, hk, List.range'_succ, hstep]
  simp [sumLen]

theorem sumLen_append (data : List Segment) (l r : ℕ) (h : l ≤ r) :
    sumLen data l (r + 1) = sumLen data l r + segLen data r := by
  have hk : r + 1 - l = (r - l) + 1 := by omega
  have hr : l + (r - l) = r := by omega
  rw [sumLen, hk, List.range'_1_concat, hr]
  simp [sumLen]

theorem range'_prepend (l r : ℕ) (h1 : 1 ≤ l) (h2 : l ≤ r) :
    (l - 1) :: List.range' l (r - l) = List.range' (l - 1) (r - (l - 1)) := by
  have hk : r - (l - 1) = (r - l) + 1 := by omega
  have hstep : l - 1 + 1 = l := by omega
  rw [hk, List.range'_succ, hstep]

theorem range'_append_right (l r : ℕ) (h : l ≤ r) :
    List.range' l (r - l) ++ [r] = List.range' l (r + 1 - l) := by
  have hk : r + 1 - l = (r - l) + 1 := by omega
  have hr : l + (r - l) = r := by omega
  rw [hk, List.range'_1_concat, hr]

theorem map_segLen_shift (d : Segment) (ds : List Segment) :
    ∀ (n k : ℕ), (List.range' (k + 1) n).map (segLen (d :: ds)) =
      (List.range' k n).map (segLen ds) := by
  intro n
  induction n with
  | zero => intro k; simp
  | succ n ih =>
      intro k
      rw [List.range'_succ, List.range'_succ, List.map_cons, List.map_cons, ih (k + 1)]
      congr 1
      simp [segLen, segText]

theorem sumLen_total (data : List Segment) :
    sumLen data 0 data.length = totalLen data := by
  induction data with
  | nil => rfl
  | cons d ds ih =>
      rw [sumLen, totalLen]
      simp only [List.length_cons, Nat.sub_zero, List.range'_succ, List.map_cons, List.sum_cons]
      rw [map_segLen_shift d ds ds.length 0]
      have h0 : segLen (d :: ds) 0 = d.text.length := by simp [segLen, segText]
      rw [h0]
      have hih : ((List.range' 0 ds.length).map (segLen ds)).sum =
          (ds.map fun sg => sg.text.length).sum := by
        have := ih
        rw [sumLen, totalLen] at this
        simpa using this
      rw [hih]

theorem pyJoin_length (l : List String) :
    (l.map String.length).sum ≤ (pyJoin l).length := by
  induction l with
  | nil => simp [pyJoin]
  | cons s rest ih =>
      cases rest with
      | nil => simp [pyJoin]
      | cons t rs =>
          have hp : pyJoin (s :: t :: rs) = s ++ " " ++ pyJoin (t :: rs) := rfl
          rw [hp]
          simp only [List.map_cons, List.sum_cons, String.length_append]
          have := ih
          simp only [List.map_cons, List.sum_cons] at this
          omega

/-- Loop invariant of the outward expansion: entered with the contiguous
index window `[l, r)`, its summed text length, and cursors `left = l - 1`
and `right = r`, the loop returns a contiguous window `[lo, hi)`
containing `[l, r)`, and that window either reaches the 400-character
target or covers the whole transcript. -/
theorem expandLoop_invariant (data : List Segment) :
    ∀ (fuel l r : ℕ), l + (data.length - r) ≤ fuel → l < r → r ≤ data.length →
      ∃ lo hi, lo ≤ l ∧ r ≤ hi ∧ hi ≤ data.length ∧
        expandLoop data (List.range' l (r - l)) (sumLen data l r) ((l : ℤ) - 1) r =
          List.range' lo (hi - lo) ∧
        (400 ≤ sumLen data lo hi ∨ (lo = 0 ∧ hi = data.length)) := by
  intro fuel
  induction fuel with
  | zero =>
      intro l r hfuel hlr hrn
      have hl0 : l = 0 := by omega
      have hrn' : r = data.length := by omega
      subst hl0
      subst hrn'
      refine ⟨0, data.length, le_refl 0, le_refl _, le_refl _, ?_, Or.inr ⟨rfl, rfl⟩⟩
      rw [expandLoop.eq_def]
      by_cases hc : sumLen data 0 data.length < 400
      · rw [if_pos hc, dif_neg (by omega : ¬(0 : ℤ) ≤ ((0 : ℕ) : ℤ) - 1),
          dif_neg (by omega : ¬data.length < data.length)]
      · rw [if_neg hc]
  | succ fuel ih =>
      intro l r hfuel hlr hrn
      rw [expandLoop.eq_def]
      by_cases hc : sumLen data l r < 400
      · rw [if_pos hc]
        by_cases hl : 1 ≤ l
        · rw [dif_pos (by omega : (0 : ℤ) ≤ ((l : ℕ) : ℤ) - 1)]
          have hli : (((l : ℕ) : ℤ) - 1).toNat = l - 1 := by omega
          rw [hli]
          by_cases hmid : 400 ≤ sumLen data l r + segLen data (l - 1)
          · rw [if_pos hmid]
            refine ⟨l - 1, r, by omega, le_refl r, hrn, ?_, Or.inl ?_⟩
            · rw [range'_prepend l r hl (le_of_lt hlr)]
            · rw [sumLen_prepend data l r hl (le_of_lt hlr)]
              omega
          · rw [if_neg hmid]
            by_cases hr2 : r < data.length
            · rw [dif_pos hr2]
              rw [show ((l - 1 : ℕ) :: List.range' l (r - l)) ++ [r] =
                    List.range' (l - 1) (r + 1 - (l - 1)) by
                  rw [range'_prepend l r hl (le_of_lt hlr),
                    range'_append_right (l - 1) r (by omega)]]
              rw [show sumLen data l r + segLen data (l - 1) + segLen data r =
                    sumLen data (l - 1) (r + 1) by
                  rw [sumLen_append data (l - 1) r (by omega),
                    sumLen_prepend data l r hl (le_of_lt hlr)]
                  omega]
              rw [show ((l : ℕ) : ℤ) - 1 - 1 = ((l - 1 : ℕ) : ℤ) - 1 by omega]
              obtain ⟨lo, hi, hlo, hhi, hhin, heq, hdisj⟩ :=
                ih (l - 1) (r + 1) (by omega) (by omega) (by omega)
              exact ⟨lo, hi, by omega, by omega, hhin, heq, hdisj⟩
            · rw [dif_neg hr2]
              rw [show ((l - 1 : ℕ) :: List.range' l (r - l)) =
                    List.range' (l - 1) (r - (l - 1)) from range'_prepend l r hl (le_of_lt hlr)]
              rw [show sumLen data l r + segLen data (l - 1) = sumLen data (l - 1) r by
                  rw [sumLen_prepend data l r hl (le_of_lt hlr)]
                  omega]
              rw [show ((l : ℕ) : ℤ) - 1 - 1 = ((l - 1 : ℕ) : ℤ) - 1 by omega]
              obtain ⟨lo, hi, hlo, hhi, hhin, heq, hdisj⟩ :=
                ih (l - 1) r (by omega) (by omega) hrn
              exact ⟨lo, hi, by omega, hhi, hhin, heq, hdisj⟩
        · rw [dif_neg (by omega : ¬(0 : ℤ) ≤ ((l : ℕ) : ℤ) - 1)]
          by_cases hr2 : r < data.length
          · rw [dif_pos hr2]
            rw [show List.range' l (r - l) ++ [r] = List.range' l (r + 1 - l) from
                range'_append_right l r (le_of_lt hlr)]
            rw [show sumLen data l r + segLen data r = sumLen data l (r + 1) from
                (sumLen_append data l r (le_of_lt hlr)).symm]
            obtain ⟨lo, hi, hlo, hhi, hhin, heq, hdisj⟩ :=
              ih l (r + 1) (by omega) (by omega) (by omega)
            exact ⟨lo, hi, hlo, by omega, hhin, heq, hdisj⟩
          · rw [dif_neg hr2]
            exact ⟨l, r, le_refl l, le_refl r, hrn, rfl, Or.inr ⟨by omega, by omega⟩⟩
      · rw [if_neg hc]
        exact ⟨l, r, le_refl l, le_refl r, hrn, rfl, Or.inl (not_lt.mp hc)⟩

theorem nearestAux_bounds (t : ℚ) :
    ∀ (l : List Segment) (i : ℕ) (d : ℚ) (j : ℕ), nearestAux t l i = some (d, j) →
      i ≤ j ∧ j < i + l.length := by
  intro l
  induction l with
  | nil => intro i d j h; cases h
  | cons s rest ih =>
      intro i d j h
      rcases hrest : nearestAux t rest (i + 1) with _ | b
      · simp only [nearestAux, hrest, Option.some.injEq, Prod.mk.injEq] at h
        simp only [List.length_cons]
        omega
      · obtain ⟨bd, bi⟩ := b
        have hb := ih (i + 1) bd bi hrest
        simp only [nearestAux, hrest] at h
        split at h <;>
          simp only [Option.some.injEq, Prod.mk.injEq] at h <;>
          simp only [List.length_cons] <;>
          omega

theorem nearestAux_isSome (t : ℚ) (s : Segment) (rest : List Segment) (i : ℕ) :
    ∃ b, nearestAux t (s :: rest) i = some b := by
  rcases hrest : nearestAux t rest (i + 1) with _ | b
  · exact ⟨(min |t - s.start| |t - s.stop|, i), by simp only [nearestAux, hrest]⟩
  · obtain ⟨bd, bi⟩ := b
    by_cases hle : min |t - s.start| |t - s.stop| ≤ bd
    · exact ⟨(min |t - s.start| |t - s.stop|, i),
        by simp only [nearestAux, hrest]; rw [if_pos hle]⟩
    · exact ⟨(bd, bi), by simp only [nearestAux, hrest]; rw [if_neg hle]⟩

theorem startIdx_some_lt (data : List Segment) (t : ℚ) (hne : data ≠ []) :
    ∃ ti, startIdx data t = some ti ∧ ti < data.length := by
  rcases hf : data.findIdx? (fun s => decide (s.start ≤ t ∧ t ≤ s.stop)) with _ | i
  · cases data with
    | nil => exact absurd rfl hne
    | cons s rest =>
        obtain ⟨b, hb⟩ := nearestAux_isSome t s rest 0
        obtain ⟨hb1, hb2⟩ := nearestAux_bounds t (s :: rest) 0 b.1 b.2 (by rw [hb])
        refine ⟨b.2, ?_, by simpa using hb2⟩
        simp only [startIdx, hf, nearestIdx, hb, Option.map_some']
  · obtain ⟨hlt, -⟩ := List.findIdx?_eq_some_iff_getElem.mp hf
    exact ⟨i, by simp only [startIdx, hf], hlt⟩

/-- C7: on a non-empty transcript, `get_text_at_time` returns text built
by joining, in transcript order, a contiguous window of segments `[lo,
hi)` around the selected start segment (the first segment containing the
timestamp by interval containment, else the nearest-boundary segment);
its character length reaches `min(400, total transcript text length)`,
so the text is non-empty whenever the transcript holds any text at
all. -/
theorem get_text_at_time_spec (data : List Segment) (t : ℚ) (hne : data ≠ []) :
    ∃ ti lo hi s,
      startIdx data t = some ti ∧
      lo ≤ ti ∧ ti < hi ∧ hi ≤ data.length ∧
      get_text_at_time data t = some s ∧
      s = pyJoin ((List.range' lo (hi - lo)).map (segText data)) ∧
      min 400 (totalLen data) ≤ s.length ∧
      (0 < totalLen data → s ≠ "") := by
  obtain ⟨ti, hti, htil⟩ := startIdx_some_lt data t hne
  obtain ⟨lo, hi, hlo, hhi, hhin, heq, hdisj⟩ :=
    expandLoop_invariant data (ti + (data.length - (ti + 1))) ti (ti + 1)
      (le_refl _) (by omega) (by omega)
  have hcall : expandLoop data [ti] (segLen data ti) ((ti : ℤ) - 1) (ti + 1) =
      List.range' lo (hi - lo) := by
    have h1 : List.range' ti (ti + 1 - ti) = [ti] := by
      rw [show ti + 1 - ti = 1 by omega, List.range'_one]
    rw [h1, sumLen_single] at heq
    exact heq
  have hres : get_text_at_time data t =
      some (pyJoin ((List.range' lo (hi - lo)).map (segText data))) := by
    simp only [get_text_at_time, hti, hcall]
  have hmap : ((List.range' lo (hi - lo)).map (segText data)).map String.length =
      (List.range' lo (hi - lo)).map (segLen data) := by
    rw [List.map_map]
    rfl
  have hlen := pyJoin_length ((List.range' lo (hi - lo)).map (segText data))
  rw [hmap] at hlen
  have hsum : ((List.range' lo (hi - lo)).map (segLen data)).sum = sumLen data lo hi := rfl
  rw [hsum] at hlen
  have hlenfinal : min 400 (totalLen data) ≤
      (pyJoin ((List.range' lo (hi - lo)).map (segText data))).length := by
    rcases hdisj with h | ⟨h0, hN⟩
    · calc min 400 (totalLen data) ≤ 400 := min_le_left _ _
        _ ≤ sumLen data lo hi := h
        _ ≤ _ := hlen
    · subst h0
      subst hN
      calc min 400 (totalLen data) ≤ totalLen data := min_le_right _ _
        _ = sumLen data 0 data.length := (sumLen_total data).symm
        _ ≤ _ := hlen
  refine ⟨ti, lo, hi, _, hti, hlo, by omega, hhin, hres, rfl, hlenfinal, ?_⟩
  intro htot h0
  rw [h0] at hlenfinal
  have hz : ("" : String).length = 0 := rfl
  omega

/-- C7 witness: a one-segment transcript with text `hello` queried at
time 0 yields text of length at least `min 400 5 = 5`, hence
non-empty. -/
theorem get_text_at_time_spec_witness :
    ([⟨0, 1, "hello"⟩] : List Segment) ≠ [] ∧
    ∃ ti lo hi s,
      startIdx [⟨0, 1, "hello"⟩] 0 = some ti ∧
      lo ≤ ti ∧ ti < hi ∧ hi ≤ ([⟨0, 1, "hello"⟩] : List Segment).length ∧
      get_text_at_time [⟨0, 1, "hello"⟩] 0 = some s ∧
      s = pyJoin ((List.range' lo (hi - lo)).map (segText [⟨0, 1, "hello"⟩])) ∧
      min 400 (totalLen [⟨0, 1, "hello"⟩]) ≤ s.length ∧
      (0 < totalLen [⟨0, 1, "hello"⟩] → s ≠ "") :=
  ⟨by simp, get_text_at_time_spec [⟨0, 1, "hello"⟩] 0 (by simp)⟩

end AbsKosync
